import Mathlib

/-!
Verification development for the biscuit-rust Datalog text parser
(`src/parser.rs`) and token builder (`src/token/builder.rs`).

The two source files describe two snapshots of the `token::builder` data
model: `parser.rs` builds terms with `Bool` and `Set` variants and rules
carrying `Expression`s, while the `Term`/`Rule` declared in
`token/builder.rs` still have neither (six variants, constraint-based
rules).  We therefore embed the parser together with the data model it
requires in namespace `Parser`, and the builder file as committed in
namespace `Builder`.

Parsers are embedded as functions `List Char → PRes α`, mirroring nom's
`IResult<&str, α>`: `.ok rest v` is `Ok((rest, v))`, `.fail` is `Err(..)`,
and `.panicked msg` models a Rust `panic!(msg)` unwinding through the
combinators (the `set` parser in `parser.rs` panics on some inputs).
Loops (`many0`, `separated_list1`) and the recursive expression grammar
are written with an explicit fuel argument so that every definition is
structurally recursive and kernel-evaluable; the fuel is initialised from
the input length, which bounds the number of loop iterations because each
continuing iteration of the source combinators consumes at least one
character.
-/

set_option maxRecDepth 8192

namespace Parser

/-- Outcome of a nom parser: success with remaining input, recoverable
failure (`nom::Err`), or a Rust panic unwinding out of the parser. -/
inductive PRes (α : Type) where
  | ok (rest : List Char) (val : α)
  | fail
  | panicked (msg : String)
deriving Repr

/-- `multispace0`'s character class: space, tab, carriage return, line feed. -/
def isSpaceChar (c : Char) : Bool :=
  c = ' ' || c = '\t' || c = '\n' || c = '\r'

/-- `multispace0` (named `space0` in parser.rs): drop leading whitespace.
It never fails. -/
def space0 (i : List Char) : List Char :=
  i.dropWhile isSpaceChar

/-- nom `tag`: match an exact character sequence. -/
def tagP : List Char → List Char → PRes Unit
  | [], i => .ok i ()
  | _ :: _, [] => .fail
  | c :: cs, x :: xs => if x = c then tagP cs xs else .fail

/-- nom `tag_no_case`: ASCII case-insensitive `tag`. -/
def tagNoCaseP : List Char → List Char → PRes Unit
  | [], i => .ok i ()
  | _ :: _, [] => .fail
  | c :: cs, x :: xs => if x.toLower = c.toLower then tagNoCaseP cs xs else .fail

/-- nom `char`. -/
def charP (c : Char) : List Char → PRes Char
  | [] => .fail
  | x :: xs => if x = c then .ok xs c else .fail

/-- nom `take_while1 p`: the longest non-empty prefix of characters
satisfying `p`. -/
def takeWhile1 (p : Char → Bool) (i : List Char) : PRes (List Char) :=
  match i.takeWhile p with
  | [] => .fail
  | t => .ok (i.dropWhile p) t

/-- The loop of nom's `separated_list1 sep p` after the first element: try
`sep` then `p`; when either fails the separator is backtracked and the
accumulated list is returned. -/
def sepLoop {β α : Type} (sep : List Char → PRes β) (p : List Char → PRes α) :
    Nat → List Char → List α → PRes (List α)
  | 0, _, _ => .fail
  | fuel + 1, i, acc =>
    match sep i with
    | .fail => .ok i acc
    | .panicked m => .panicked m
    | .ok i1 _ =>
      match p i1 with
      | .fail => .ok i acc
      | .panicked m => .panicked m
      | .ok i2 v => sepLoop sep p fuel i2 (acc ++ [v])

/-- nom `separated_list1`.  Every separator used in parser.rs consumes at
least one character, so a fuel of `length + 1` never runs out. -/
def separated_list1 {β α : Type} (sep : List Char → PRes β)
    (p : List Char → PRes α) (i : List Char) : PRes (List α) :=
  match p i with
  | .fail => .fail
  | .panicked m => .panicked m
  | .ok i1 v => sepLoop sep p (i1.length + 1) i1 [v]

/-- Alternation of two parsers (nom `alt`): a panic is not recoverable. -/
def altP {α : Type} (p q : List Char → PRes α) (i : List Char) : PRes α :=
  match p i with
  | .ok rest v => .ok rest v
  | .panicked m => .panicked m
  | .fail => q i

/-- Alias so that the `Bool` variant of `Term` below can still refer to the
built-in booleans in its binder. -/
abbrev B := Bool

/-- The term type `parser.rs` constructs (`builder::Term` as that file uses
it): the eight variants of the spec's tagged value.  The `Bool` and `Set`
variants are matched on and produced by `parser.rs` itself (`boolean`,
`set`, and the `set` function's exhaustive `match`), although the `Term`
enum declared in `token/builder.rs` lacks them — see claim C2.  `i64`
becomes `Int` with the parser enforcing the i64 bounds, `u64` becomes
`Nat`, `Vec<u8>` becomes `List Nat`, and `BTreeSet<Term>` becomes a
sorted, duplicate-free `List Term`. -/
inductive Term where
  | Symbol (s : String)
  | Variable (s : String)
  | Integer (i : Int)
  | Str (s : String)
  | Date (d : Nat)
  | Bytes (b : List Nat)
  | Bool (b : B)
  | Set (elems : List Term)
deriving Repr

/-- Lexicographic comparison of byte lists (`Vec<u8>`'s derived `Ord`). -/
def bytesLt : List Nat → List Nat → Bool
  | [], [] => false
  | [], _ :: _ => true
  | _ :: _, [] => false
  | x :: xs, y :: ys => x < y || (x = y && bytesLt xs ys)

/-- Lexicographic comparison of character lists (`String`'s `Ord`). -/
def charsLt : List Char → List Char → Bool
  | [], [] => false
  | [], _ :: _ => true
  | _ :: _, [] => false
  | x :: xs, y :: ys => x < y || (x = y && charsLt xs ys)

/-- The variant rank of `Term`'s derived `Ord` (declaration order). -/
def Term.variantIdx : Term → Nat
  | .Symbol _ => 0
  | .Variable _ => 1
  | .Integer _ => 2
  | .Str _ => 3
  | .Date _ => 4
  | .Bytes _ => 5
  | .Bool _ => 6
  | .Set _ => 7

/-- `Term`'s strict order (`BTreeSet<Term>` uses the derived `Ord`): variant
rank first, then the payload.  Two `Set` payloads are treated as equal: the
parser never places a `Set` inside a `Set` (`term_in_set` cannot produce
one and the source panics on nested sets), so this case is unreachable
from parsing. -/
def termLt (a b : Term) : Bool :=
  if a.variantIdx ≠ b.variantIdx then a.variantIdx < b.variantIdx else
  match a, b with
  | .Symbol x, .Symbol y => charsLt x.toList y.toList
  | .Variable x, .Variable y => charsLt x.toList y.toList
  | .Integer x, .Integer y => x < y
  | .Str x, .Str y => charsLt x.toList y.toList
  | .Date x, .Date y => x < y
  | .Bytes x, .Bytes y => bytesLt x y
  | .Bool x, .Bool y => !x && y
  | _, _ => false

/-- `BTreeSet::insert`: insert in order, keeping the existing element when
an equal one is present. -/
def btreeInsert (t : Term) : List Term → List Term
  | [] => [t]
  | x :: xs =>
    if termLt t x then t :: x :: xs
    else if termLt x t then x :: btreeInsert t xs
    else x :: xs

/-- `builder::s` / `builder::symbol`. -/
def s (x : String) : Term := .Symbol x

/-- `builder::int`. -/
def int (i : Int) : Term := .Integer i

/-- `builder::string`. -/
def string (x : String) : Term := .Str x

/-- `builder::variable` (`variable` is a Lean keyword, hence the suffix). -/
def variableT (x : String) : Term := .Variable x

/-- `builder::boolean` (referenced by parser.rs; absent from the committed
token/builder.rs, see C2). -/
def boolean (b : Bool) : Term := .Bool b

/-- `builder::set` (referenced by parser.rs; absent from the committed
token/builder.rs, see C2). -/
def set (elems : List Term) : Term := .Set elems

/-- `name`: `take_while1` over `is_alphanumeric(c as u8) || c == '_'`.
Rust's `c as u8` truncates the scalar value to a byte before the ASCII
alphanumeric test. -/
def isNameChar (c : Char) : Bool :=
  let b := c.toNat % 256
  (48 ≤ b && b ≤ 57) || (65 ≤ b && b ≤ 90) || (97 ≤ b && b ≤ 122) || c = '_'

/-- `name` in parser.rs. -/
def nameP (i : List Char) : PRes (List Char) :=
  takeWhile1 isNameChar i

/-- `printable` in parser.rs. -/
def printable (i : List Char) : PRes (List Char) :=
  takeWhile1 (fun c => !(c = '\\' || c = '\"')) i

/-- The loop of nom's `escaped_transform(printable, '\\', alt(...))`: eat
printable runs and `\\`-escapes (`\\`, `\"`, `\n`), stop before anything
else, fail on `\\` followed by an unknown escape. -/
def escapedLoop : Nat → List Char → List Char → PRes (List Char)
  | 0, _, _ => .fail
  | fuel + 1, i, acc =>
    match printable i with
    | .ok i1 chunk => escapedLoop fuel i1 (acc ++ chunk)
    | .panicked m => .panicked m
    | .fail =>
      match i with
      | '\\' :: '\\' :: rest => escapedLoop fuel rest (acc ++ ['\\'])
      | '\\' :: '\"' :: rest => escapedLoop fuel rest (acc ++ ['\"'])
      | '\\' :: 'n' :: rest => escapedLoop fuel rest (acc ++ ['\n'])
      | '\\' :: _ => .fail
      | _ => .ok i acc

/-- `parse_string_internal`. -/
def parse_string_internal (i : List Char) : PRes String :=
  match escapedLoop (i.length + 1) i [] with
  | .ok rest cs => .ok rest (String.mk cs)
  | .fail => .fail
  | .panicked m => .panicked m

/-- `parse_string`: a double-quoted string literal. -/
def parse_string (i : List Char) : PRes String :=
  match charP '\"' i with
  | .fail => .fail
  | .panicked m => .panicked m
  | .ok i1 _ =>
    match parse_string_internal i1 with
    | .fail => .fail
    | .panicked m => .panicked m
    | .ok i2 st =>
      match charP '\"' i2 with
      | .fail => .fail
      | .panicked m => .panicked m
      | .ok i3 _ => .ok i3 st

/-- `string` the term parser. -/
def stringTermP (i : List Char) : PRes Term :=
  match parse_string i with
  | .ok rest st => .ok rest (.Str st)
  | .fail => .fail
  | .panicked m => .panicked m

/-- `parse_symbol`: `#` then a name. -/
def parse_symbol (i : List Char) : PRes (List Char) :=
  match charP '#' i with
  | .ok i1 _ => nameP i1
  | .fail => .fail
  | .panicked m => .panicked m

/-- `symbol` the term parser. -/
def symbolTermP (i : List Char) : PRes Term :=
  match parse_symbol i with
  | .ok rest cs => .ok rest (s (String.mk cs))
  | .fail => .fail
  | .panicked m => .panicked m

/-- Decimal value of a digit run. -/
def digitsVal : List Char → Nat → Nat
  | [], acc => acc
  | c :: cs, acc => digitsVal cs (acc * 10 + (c.toNat - 48))

/-- `parse_integer`: `recognize(pair(opt('-'), digit1))` followed by
`str::parse::<i64>`, which rejects values outside the i64 range instead of
wrapping. -/
def parse_integer (i : List Char) : PRes Int :=
  match i with
  | '-' :: rest =>
    match takeWhile1 Char.isDigit rest with
    | .ok i1 ds =>
      let v : Int := -(digitsVal ds 0 : Int)
      if -(2 ^ 63 : Int) ≤ v then .ok i1 v else .fail
    | _ => .fail
  | _ =>
    match takeWhile1 Char.isDigit i with
    | .ok i1 ds =>
      let v : Int := (digitsVal ds 0 : Int)
      if v < 2 ^ 63 then .ok i1 v else .fail
    | _ => .fail

/-- `integer` the term parser. -/
def integerTermP (i : List Char) : PRes Term :=
  match parse_integer i with
  | .ok rest n => .ok rest (int n)
  | .fail => .fail
  | .panicked m => .panicked m

/-- Read exactly two decimal digits. -/
def read2 : List Char → Option (Nat × List Char)
  | a :: b :: rest =>
    if a.isDigit && b.isDigit then
      some ((a.toNat - 48) * 10 + (b.toNat - 48), rest)
    else none
  | _ => none

/-- Read exactly four decimal digits. -/
def read4 : List Char → Option (Nat × List Char)
  | a :: b :: c :: d :: rest =>
    if a.isDigit && b.isDigit && c.isDigit && d.isDigit then
      some (((a.toNat - 48) * 10 + (b.toNat - 48)) * 100
              + (c.toNat - 48) * 10 + (d.toNat - 48), rest)
    else none
  | _ => none

/-- Gregorian leap year. -/
def isLeap (y : Nat) : Bool :=
  y % 4 = 0 && (y % 100 ≠ 0 || y % 400 = 0)

/-- Days in a month of the proleptic Gregorian calendar. -/
def daysInMonth (y m : Nat) : Nat :=
  if m = 2 then (if isLeap y then 29 else 28)
  else if m = 4 || m = 6 || m = 9 || m = 11 then 30
  else 31

/-- Days in the months strictly before month `m` of year `y`. -/
def daysBeforeMonth (y m : Nat) : Nat :=
  let leapAdd := if isLeap y && m > 2 then 1 else 0
  (match m with
   | 1 => 0 | 2 => 31 | 3 => 59 | 4 => 90 | 5 => 120 | 6 => 151
   | 7 => 181 | 8 => 212 | 9 => 243 | 10 => 273 | 11 => 304 | _ => 334)
  + leapAdd

/-- Leap years strictly before year `y` (year 0 is a leap year). -/
def leapsBefore (y : Nat) : Nat :=
  match y with
  | 0 => 0
  | z + 1 => z / 4 - z / 100 + z / 400 + 1

/-- Days from 0000-01-01 to the given proleptic Gregorian date. -/
def totalDays (y m d : Nat) : Nat :=
  365 * y + leapsBefore y + daysBeforeMonth y m + (d - 1)

/-- Days from 0000-01-01 to the Unix epoch 1970-01-01. -/
def epochDays : Nat := 719528

/-- Modelled from the spec: `chrono::DateTime::parse_from_rfc3339` followed
by `.timestamp()`, used by `parse_date`; chrono is an external crate whose
code is not part of this repository.  Parses
`YYYY-MM-DDTHH:MM:SS[.digits](Z|±HH:MM)` — the entire input must be
consumed, field ranges are validated (leap seconds are not modelled), the
fractional part is ignored by `timestamp()` — and returns the signed count
of seconds since the Unix epoch. -/
def rfc3339Timestamp (i : List Char) : Option Int := do
  let (y, i) ← read4 i
  let i ← match i with | '-' :: r => some r | _ => none
  let (mo, i) ← read2 i
  let i ← match i with | '-' :: r => some r | _ => none
  let (d, i) ← read2 i
  let i ← match i with | 'T' :: r => some r | _ => none
  let (h, i) ← read2 i
  let i ← match i with | ':' :: r => some r | _ => none
  let (mi, i) ← read2 i
  let i ← match i with | ':' :: r => some r | _ => none
  let (se, i) ← read2 i
  let i ← match i with
    | '.' :: r =>
      match r.takeWhile Char.isDigit with
      | [] => none
      | _ => some (r.dropWhile Char.isDigit)
    | r => some r
  let (offSecs, i) ← match i with
    | 'Z' :: r => some ((0 : Int), r)
    | 'z' :: r => some ((0 : Int), r)
    | '+' :: r => do
      let (oh, r) ← read2 r
      let r ← match r with | ':' :: r2 => some r2 | _ => none
      let (om, r) ← read2 r
      if oh ≤ 23 && om ≤ 59 then some (((oh * 3600 + om * 60 : Nat) : Int), r) else none
    | '-' :: r => do
      let (oh, r) ← read2 r
      let r ← match r with | ':' :: r2 => some r2 | _ => none
      let (om, r) ← read2 r
      if oh ≤ 23 && om ≤ 59 then some (-((oh * 3600 + om * 60 : Nat) : Int), r) else none
    | _ => none
  match i with
  | [] =>
    if 1 ≤ mo && mo ≤ 12 && 1 ≤ d && d ≤ daysInMonth y mo
        && h ≤ 23 && mi ≤ 59 && se ≤ 59 then
      some (((totalDays y mo d : Int) - (epochDays : Int)) * 86400
              + (h * 3600 + mi * 60 + se : Nat) - offSecs)
    else none
  | _ => none

/-- `parse_date`: take the run of characters before `,`, ` ` or `)`, parse
it as an RFC 3339 datetime, and convert the timestamp to `u64`
(`try_into`), failing on a negative (pre-1970) timestamp. -/
def parse_date (i : List Char) : PRes Nat :=
  match takeWhile1 (fun c => !(c = ',' || c = ' ' || c = ')')) i with
  | .fail => .fail
  | .panicked m => .panicked m
  | .ok rest chunk =>
    match rfc3339Timestamp chunk with
    | none => .fail
    | some ts => if 0 ≤ ts then .ok rest ts.toNat else .fail

/-- `date` the term parser. -/
def dateTermP (i : List Char) : PRes Term :=
  match parse_date i with
  | .ok rest t => .ok rest (.Date t)
  | .fail => .fail
  | .panicked m => .panicked m

/-- A hexadecimal digit (`parse_bytes`'s character class). -/
def isHexDigit (c : Char) : Bool :=
  ('0' ≤ c && c ≤ '9') || ('a' ≤ c && c ≤ 'f') || ('A' ≤ c && c ≤ 'F')

/-- Numeric value of a hexadecimal digit. -/
def hexVal (c : Char) : Nat :=
  if c ≤ '9' then c.toNat - 48
  else if c ≤ 'F' then c.toNat - 55
  else c.toNat - 87

/-- `hex::decode`: pairs of hex digits to bytes, failing on odd length. -/
def hexDecode : List Char → Option (List Nat)
  | [] => some []
  | a :: b :: rest => (hexDecode rest).map (fun t => (hexVal a * 16 + hexVal b) :: t)
  | [_] => none

/-- `parse_bytes`: `hex:` followed by hex digits, decoded. -/
def parse_bytes (i : List Char) : PRes (List Nat) :=
  match tagP "hex:".toList i with
  | .fail => .fail
  | .panicked m => .panicked m
  | .ok i1 _ =>
    match takeWhile1 isHexDigit i1 with
    | .fail => .fail
    | .panicked m => .panicked m
    | .ok i2 ds =>
      match hexDecode ds with
      | some bs => .ok i2 bs
      | none => .fail

/-- `bytes` the term parser. -/
def bytesTermP (i : List Char) : PRes Term :=
  match parse_bytes i with
  | .ok rest bs => .ok rest (.Bytes bs)
  | .fail => .fail
  | .panicked m => .panicked m

/-- `variable`: `$` then a name. -/
def variableTermP (i : List Char) : PRes Term :=
  match charP '$' i with
  | .ok i1 _ =>
    match nameP i1 with
    | .ok rest cs => .ok rest (variableT (String.mk cs))
    | .fail => .fail
    | .panicked m => .panicked m
  | .fail => .fail
  | .panicked m => .panicked m

/-- `parse_bool`: the tags `true` and `false`. -/
def parse_bool (i : List Char) : PRes Bool :=
  match tagP "true".toList i with
  | .ok rest _ => .ok rest true
  | _ =>
    match tagP "false".toList i with
    | .ok rest _ => .ok rest false
    | _ => .fail

/-- `boolean` the term parser. -/
def booleanTermP (i : List Char) : PRes Term :=
  match parse_bool i with
  | .ok rest b => .ok rest (boolean b)
  | .fail => .fail
  | .panicked m => .panicked m

/-- `term_in_set`: the alternatives allowed inside a set literal — no
variable and no nested set. -/
def term_in_set (i : List Char) : PRes Term :=
  altP symbolTermP
    (altP stringTermP
      (altP dateTermP
        (altP integerTermP
          (altP bytesTermP booleanTermP)))) (space0 i)

/-- The `set` function's per-element kind index and its three `panic!`
sites (parser.rs has a `FIXME: replace panics with proper parse errors`
above this function). -/
def setFoldStep (kind : Option Nat) (acc : List Term) (t : Term) :
    PRes (Option Nat × List Term) :=
  match t with
  | .Variable _ => .panicked "variables are not permitted in sets"
  | .Set _ => .panicked "sets cannot contain other sets"
  | _ =>
    let index := t.variantIdx
    match kind with
    | some k => if k ≠ index then .panicked "set elements must have the same type"
                else .ok [] (some k, btreeInsert t acc)
    | none => .ok [] (some index, btreeInsert t acc)

/-- The `for` loop of `set`: check homogeneity (panicking as the source
does) while inserting each element into the `BTreeSet`. -/
def setFold : List Term → Option Nat → List Term → PRes (List Term)
  | [], _, acc => .ok [] acc
  | t :: ts, kind, acc =>
    match setFoldStep kind acc t with
    | .panicked m => .panicked m
    | .fail => .fail
    | .ok _ (kind1, acc1) => setFold ts kind1 acc1

/-- `set`: a bracketed, comma-separated list of `term_in_set`, collected
into a `BTreeSet`; mixed element kinds, variables and nested sets hit the
source's `panic!` calls. -/
def setTermP (i : List Char) : PRes Term :=
  match charP '[' (space0 i) with
  | .fail => .fail
  | .panicked m => .panicked m
  | .ok i1 _ =>
    match separated_list1 (fun j => charP ',' (space0 j)) term_in_set i1 with
    | .fail => .fail
    | .panicked m => .panicked m
    | .ok i2 list =>
      match setFold list none [] with
      | .fail => .fail
      | .panicked m => .panicked m
      | .ok _ elems =>
        match charP ']' (space0 i2) with
        | .fail => .fail
        | .panicked m => .panicked m
        | .ok i3 _ => .ok i3 (set elems)

/-- `term`: all term alternatives, preceded by whitespace. -/
def term (i : List Char) : PRes Term :=
  altP symbolTermP
    (altP stringTermP
      (altP dateTermP
        (altP variableTermP
          (altP integerTermP
            (altP bytesTermP
              (altP booleanTermP setTermP)))))) (space0 i)

/-- `builder::Predicate`: a name and its ordered argument terms. -/
structure Predicate where
  name : String
  ids : List Term
deriving Repr

/-- `builder::Fact`: a predicate (groundness is not checked by the parser). -/
structure Fact where
  pred : Predicate
deriving Repr

/-- `builder::Unary` as parser.rs uses it. -/
inductive Unary where
  | Negate
deriving Repr

/-- `builder::Binary` as parser.rs uses it. -/
inductive Binary where
  | LessThan
  | GreaterThan
  | LessOrEqual
  | GreaterOrEqual
  | Equal
  | In
  | NotIn
  | Prefix
  | Suffix
  | Regex
  | Add
  | And
deriving Repr

/-- `builder::Op`: one opcode of a postfix expression. -/
inductive Op where
  | Value (t : Term)
  | Unary (op : Unary)
  | Binary (op : Binary)
deriving Repr

/-- `builder::Expression`: a flat opcode sequence. -/
structure Expression where
  ops : List Op
deriving Repr

/-- `builder::Rule` as parser.rs builds it: head predicate, body
predicates, expressions. -/
structure Rule where
  head : Predicate
  body : List Predicate
  expressions : List Expression
deriving Repr

/-- `builder::Caveat`. -/
structure Caveat where
  queries : List Rule
deriving Repr

/-- `builder::PolicyKind`. -/
inductive PolicyKind where
  | Allow
  | Deny
deriving Repr

/-- `builder::Policy`. -/
structure Policy where
  queries : List Rule
  kind : PolicyKind
deriving Repr

/-- `predicate`: a name and a parenthesised, non-empty comma-separated
term list. -/
def predicate (i : List Char) : PRes Predicate :=
  match nameP (space0 i) with
  | .fail => .fail
  | .panicked m => .panicked m
  | .ok i1 fact_name =>
    match charP '(' (space0 i1) with
    | .fail => .fail
    | .panicked m => .panicked m
    | .ok i2 _ =>
      match separated_list1 (fun j => charP ',' (space0 j)) term i2 with
      | .fail => .fail
      | .panicked m => .panicked m
      | .ok i3 ids =>
        match charP ')' (space0 i3) with
        | .fail => .fail
        | .panicked m => .panicked m
        | .ok i4 _ => .ok i4 ⟨String.mk fact_name, ids⟩

/-- `rule_head`: like `predicate` but the term list may be empty
(`separated_list0`). -/
def rule_head (i : List Char) : PRes Predicate :=
  match nameP (space0 i) with
  | .fail => .fail
  | .panicked m => .panicked m
  | .ok i1 fact_name =>
    match charP '(' (space0 i1) with
    | .fail => .fail
    | .panicked m => .panicked m
    | .ok i2 _ =>
      match
        (match term i2 with
         | .fail => PRes.ok i2 ([] : List Term)
         | .panicked m => .panicked m
         | .ok i2a v => sepLoop (fun j => charP ',' (space0 j)) term (i2a.length + 1) i2a [v])
      with
      | .fail => .fail
      | .panicked m => .panicked m
      | .ok i3 ids =>
        match charP ')' (space0 i3) with
        | .fail => .fail
        | .panicked m => .panicked m
        | .ok i4 _ => .ok i4 ⟨String.mk fact_name, ids⟩

/-- The parser's expression tree (`Expr` in parser.rs). -/
inductive Expr where
  | Value (t : Term)
  | Unary (op : Op) (e : Expr)
  | Binary (op : Op) (l r : Expr)
deriving Repr

/-- `Expr::into_opcodes`: push this tree's postfix opcodes onto `v`. -/
def Expr.into_opcodes : Expr → List Op → List Op
  | .Value t, v => v ++ [.Value t]
  | .Unary op e, v => e.into_opcodes v ++ [op]
  | .Binary op l r, v => r.into_opcodes (l.into_opcodes v) ++ [op]

/-- `Expr::opcodes`: the postfix opcode sequence of an expression tree. -/
def Expr.opcodes (e : Expr) : List Op :=
  e.into_opcodes []

/-- `binary_op_0`: `&&`. -/
def binary_op_0 (i : List Char) : PRes Binary :=
  match tagP "&&".toList i with
  | .ok rest _ => .ok rest .And
  | _ => .fail

/-- `binary_op_1`: comparisons, longest tags first as in the source. -/
def binary_op_1 (i : List Char) : PRes Binary :=
  match tagP "<=".toList i with
  | .ok rest _ => .ok rest .LessOrEqual
  | _ =>
  match tagP ">=".toList i with
  | .ok rest _ => .ok rest .GreaterOrEqual
  | _ =>
  match tagP "<".toList i with
  | .ok rest _ => .ok rest .LessThan
  | _ =>
  match tagP ">".toList i with
  | .ok rest _ => .ok rest .GreaterThan
  | _ =>
  match tagP "==".toList i with
  | .ok rest _ => .ok rest .Equal
  | _ => .fail

/-- `binary_op_2`: `+`. -/
def binary_op_2 (i : List Char) : PRes Binary :=
  match tagP "+".toList i with
  | .ok rest _ => .ok rest .Add
  | _ => .fail

/-- `binary_op_3`: membership and string matches. -/
def binary_op_3 (i : List Char) : PRes Binary :=
  match tagP "in".toList i with
  | .ok rest _ => .ok rest .In
  | _ =>
  match tagP "not in".toList i with
  | .ok rest _ => .ok rest .NotIn
  | _ =>
  match tagP "starts with".toList i with
  | .ok rest _ => .ok rest .Prefix
  | _ =>
  match tagP "ends with".toList i with
  | .ok rest _ => .ok rest .Suffix
  | _ =>
  match tagP "matches".toList i with
  | .ok rest _ => .ok rest .Regex
  | _ => .fail

/-- The `many0(tuple((preceded(space0, op), sub)))` loop shared by
`expr` .. `expr3`, already folding with `fold_exprs` (left fold into
`Expr::Binary`).  A failed iteration is backtracked whole, as nom's
`many0` does. -/
def binLoop (opP : List Char → PRes Binary) (sub : List Char → PRes Expr) :
    Nat → List Char → Expr → PRes Expr
  | 0, _, _ => .fail
  | fuel + 1, i, acc =>
    match opP (space0 i) with
    | .fail => .ok i acc
    | .panicked m => .panicked m
    | .ok i1 op =>
      match sub i1 with
      | .fail => .ok i acc
      | .panicked m => .panicked m
      | .ok i2 e => binLoop opP sub fuel i2 (.Binary (.Binary op) acc e)

/-- `unary`: `-` then an expression (the recursive knot, abstracted over
the `expr` recursion). -/
def unaryP (exprRec : List Char → PRes Expr) (i : List Char) : PRes Expr :=
  match tagP "-".toList (space0 i) with
  | .fail => .fail
  | .panicked m => .panicked m
  | .ok i1 _ =>
    match exprRec (space0 i1) with
    | .fail => .fail
    | .panicked m => .panicked m
    | .ok rest v => .ok rest (.Unary (.Unary .Negate) v)

/-- `expr_term`: a unary expression or a term value. -/
def expr_termP (exprRec : List Char → PRes Expr) (i : List Char) : PRes Expr :=
  match unaryP exprRec i with
  | .ok rest v => .ok rest v
  | .panicked m => .panicked m
  | .fail =>
    match term i with
    | .ok rest t => .ok rest (.Value t)
    | .fail => .fail
    | .panicked m => .panicked m

/-- `expr3`: `expr_term` then any number of level-3 operators. -/
def expr3P (exprRec : List Char → PRes Expr) (i : List Char) : PRes Expr :=
  match expr_termP exprRec i with
  | .fail => .fail
  | .panicked m => .panicked m
  | .ok i1 initial => binLoop binary_op_3 (expr_termP exprRec) (i1.length + 1) i1 initial

/-- `expr2`: `expr3` then any number of `+`. -/
def expr2P (exprRec : List Char → PRes Expr) (i : List Char) : PRes Expr :=
  match expr3P exprRec i with
  | .fail => .fail
  | .panicked m => .panicked m
  | .ok i1 initial => binLoop binary_op_2 (expr3P exprRec) (i1.length + 1) i1 initial

/-- `expr1`: `expr2` then any number of comparisons. -/
def expr1P (exprRec : List Char → PRes Expr) (i : List Char) : PRes Expr :=
  match expr2P exprRec i with
  | .fail => .fail
  | .panicked m => .panicked m
  | .ok i1 initial => binLoop binary_op_1 (expr2P exprRec) (i1.length + 1) i1 initial

/-- `expr`, one unfolding: `expr1` then any number of `&&`. -/
def exprCore (exprRec : List Char → PRes Expr) (i : List Char) : PRes Expr :=
  match expr1P exprRec i with
  | .fail => .fail
  | .panicked m => .panicked m
  | .ok i1 initial => binLoop binary_op_0 (expr1P exprRec) (i1.length + 1) i1 initial

/-- The fuelled recursion through `unary`: each recursive step consumed at
least the `-` character, so `length + 1` fuel suffices. -/
def exprFuel : Nat → List Char → PRes Expr
  | 0, _ => .fail
  | fuel + 1, i => exprCore (exprFuel fuel) i

/-- `expr` in parser.rs. -/
def expr (i : List Char) : PRes Expr :=
  exprFuel (i.length + 1) i

/-- `PredOrExpr` in parser.rs. -/
inductive PredOrExpr where
  | P (p : Predicate)
  | E (e : Expr)
deriving Repr

/-- `predicate_or_expression`. -/
def predicate_or_expression (i : List Char) : PRes PredOrExpr :=
  altP (fun j => match predicate j with
                 | .ok rest p => .ok rest (.P p)
                 | .fail => .fail
                 | .panicked m => .panicked m)
       (fun j => match expr j with
                 | .ok rest e => .ok rest (.E e)
                 | .fail => .fail
                 | .panicked m => .panicked m) i

/-- The partitioning loop of `rule_body`: split the parsed elements into
predicates and expressions, each keeping its relative order, turning each
expression tree into its opcode sequence. -/
def partitionPE : List PredOrExpr → List Predicate × List Expression
  | [] => ([], [])
  | .P p :: rest =>
    let (ps, es) := partitionPE rest
    (p :: ps, es)
  | .E e :: rest =>
    let (ps, es) := partitionPE rest
    (ps, ⟨e.opcodes⟩ :: es)

/-- The `separated_list1` of `rule_body`. -/
def sepPE (i : List Char) : PRes (List PredOrExpr) :=
  separated_list1 (fun j => charP ',' (space0 j))
    (fun j => predicate_or_expression (space0 j)) i

/-- `rule_body`: comma-separated predicates and expressions, partitioned. -/
def rule_body (i : List Char) : PRes (List Predicate × List Expression) :=
  match sepPE i with
  | .fail => .fail
  | .panicked m => .panicked m
  | .ok rest elements => .ok rest (partitionPE elements)

/-- `rule`: head, `<-`, body. -/
def rule (i : List Char) : PRes Rule :=
  match rule_head i with
  | .fail => .fail
  | .panicked m => .panicked m
  | .ok i1 head =>
    match tagP "<-".toList (space0 i1) with
    | .fail => .fail
    | .panicked m => .panicked m
    | .ok i2 _ =>
      match rule_body i2 with
      | .fail => .fail
      | .panicked m => .panicked m
      | .ok rest (predicates, expressions) => .ok rest ⟨head, predicates, expressions⟩

/-- `fact`: a predicate wrapped as a fact. -/
def fact (i : List Char) : PRes Fact :=
  match predicate i with
  | .ok rest p => .ok rest ⟨p⟩
  | .fail => .fail
  | .panicked m => .panicked m

/-- Wrap one parsed rule body as a caveat query: a `query` head with no
argument terms. -/
def queryRule (b : List Predicate × List Expression) : Rule :=
  ⟨⟨"query", []⟩, b.1, b.2⟩

/-- The `separated_list1` of `caveat_body`: rule bodies separated by
(case-insensitive) `or`. -/
def sepRuleBodies (i : List Char) : PRes (List (List Predicate × List Expression)) :=
  separated_list1 (fun j => tagNoCaseP "or".toList (space0 j))
    (fun j => rule_body (space0 j)) i

/-- `caveat_body`: the parsed rule bodies, each wrapped as a `query` rule. -/
def caveat_body (i : List Char) : PRes (List Rule) :=
  match sepRuleBodies i with
  | .fail => .fail
  | .panicked m => .panicked m
  | .ok rest bodies => .ok rest (bodies.map queryRule)

/-- `caveat`: whitespace, `check if`, then a caveat body. -/
def caveat (i : List Char) : PRes Caveat :=
  match tagNoCaseP "check if".toList (space0 i) with
  | .fail => .fail
  | .panicked m => .panicked m
  | .ok i1 _ =>
    match caveat_body i1 with
    | .ok rest queries => .ok rest ⟨queries⟩
    | .fail => .fail
    | .panicked m => .panicked m

/-- `allow`: whitespace, `allow if`, then a caveat body. -/
def allow (i : List Char) : PRes Policy :=
  match tagNoCaseP "allow if".toList (space0 i) with
  | .fail => .fail
  | .panicked m => .panicked m
  | .ok i1 _ =>
    match caveat_body i1 with
    | .ok rest queries => .ok rest ⟨queries, .Allow⟩
    | .fail => .fail
    | .panicked m => .panicked m

/-- `deny`: whitespace, `deny if`, then a caveat body. -/
def deny (i : List Char) : PRes Policy :=
  match tagNoCaseP "deny if".toList (space0 i) with
  | .fail => .fail
  | .panicked m => .panicked m
  | .ok i1 _ =>
    match caveat_body i1 with
    | .ok rest queries => .ok rest ⟨queries, .Deny⟩
    | .fail => .fail
    | .panicked m => .panicked m

/-- `policy`: `allow` or `deny`. -/
def policy (i : List Char) : PRes Policy :=
  altP allow deny i

/-- What `TryFrom<&str>` / `FromStr` return: `Ok`, the `ParseError` token
error, or a propagated panic (a nom error is mapped to
`error::Token::ParseError`, but a panic unwinds through `try_from`). -/
inductive TFRes (α : Type) where
  | ok (a : α)
  | parseError
  | panicked (msg : String)
deriving Repr

/-- Run a parser the way the `TryFrom`/`FromStr` impls do: keep the value,
drop the remaining input, map a nom error to `ParseError`. -/
def tryFromVia {α : Type} (p : List Char → PRes α) (st : String) : TFRes α :=
  match p st.toList with
  | .ok _ o => .ok o
  | .fail => .parseError
  | .panicked m => .panicked m

/-- `TryFrom<&str> for builder::Fact`. -/
def Fact.try_from (st : String) : TFRes Fact := tryFromVia fact st

/-- `FromStr for builder::Fact` (same body as `try_from`). -/
def Fact.from_str (st : String) : TFRes Fact := tryFromVia fact st

/-- `TryFrom<&str> for builder::Rule`. -/
def Rule.try_from (st : String) : TFRes Rule := tryFromVia rule st

/-- `FromStr for builder::Rule`. -/
def Rule.from_str (st : String) : TFRes Rule := tryFromVia rule st

/-- `TryFrom<&str> for builder::Caveat`. -/
def Caveat.try_from (st : String) : TFRes Caveat := tryFromVia caveat st

/-- `FromStr for builder::Caveat`. -/
def Caveat.from_str (st : String) : TFRes Caveat := tryFromVia caveat st

/-- `TryFrom<&str> for builder::Policy`. -/
def Policy.try_from (st : String) : TFRes Policy := tryFromVia policy st

/-- `FromStr for builder::Policy`. -/
def Policy.from_str (st : String) : TFRes Policy := tryFromVia policy st

/-- `FromStr for builder::Predicate`. -/
def Predicate.from_str (st : String) : TFRes Predicate := tryFromVia predicate st

/-- Modelled from the spec: the stack machine of §4.2 that consumes a
postfix opcode sequence — a `Value` opcode pushes, a `Unary` opcode pops
one operand, a `Binary` opcode pops two operands in push order — here
abstracted over the operator denotations `fu` and `fb` (the concrete
evaluator lives in the datalog module, which is not under src/).  `none`
models stack underflow. -/
def evalOps (fu : Unary → Term → Term) (fb : Binary → Term → Term → Term) :
    List Op → List Term → Option (List Term)
  | [], st => some st
  | .Value t :: rest, st => evalOps fu fb rest (t :: st)
  | .Unary u :: rest, x :: st => evalOps fu fb rest (fu u x :: st)
  | .Unary _ :: _, [] => none
  | .Binary b :: rest, x :: y :: st => evalOps fu fb rest (fb b y x :: st)
  | .Binary _ :: _, _ => none

/-- The value of an expression tree under the same operator denotations;
`none` when a node carries an opcode of the wrong arity (the parser never
builds such a node). -/
def treeEval (fu : Unary → Term → Term) (fb : Binary → Term → Term → Term) :
    Expr → Option Term
  | .Value t => some t
  | .Unary (.Unary u) e => (treeEval fu fb e).map (fu u)
  | .Unary _ _ => none
  | .Binary (.Binary b) l r =>
    match treeEval fu fb l, treeEval fu fb r with
    | some x, some y => some (fb b x y)
    | _, _ => none
  | .Binary _ _ _ => none

end Parser

/-- The direct (non-accumulating) postfix traversal, used to reason about
`Expr::into_opcodes`. -/
def opSpec : Parser.Expr → List Parser.Op
  | .Value t => [.Value t]
  | .Unary op e => opSpec e ++ [op]
  | .Binary op l r => opSpec l ++ opSpec r ++ [op]

/-!
The `Builder` namespace embeds `src/token/builder.rs` as committed: its
`Term` has six variants (no `Bool`, no `Set`) and its `Rule` carries
`Constraint`s, not `Expression`s.  The `datalog` module (symbol table,
datalog-side types) is not under src/, so those definitions are modelled
from the spec and from how builder.rs uses them.
-/

namespace Builder

/-- Modelled from the spec: `datalog::SymbolTable` (§4.1), an append-only
intern table.  `Vec<String>` becomes `List String`. -/
structure SymbolTable where
  symbols : List String
deriving Repr

/-- Position of `s` in `l`, if present. -/
def idxOf : List String → String → Option Nat
  | [], _ => none
  | x :: xs, s => if x = s then some 0 else (idxOf xs s).map (· + 1)

/-- Modelled from the spec: `SymbolTable::insert` — idempotent interning,
returning the existing id when the string is present and otherwise
appending it at the next id (§4.1: ids are never reused or reassigned).
The mutating Rust method becomes state passing. -/
def SymbolTable.insert (t : SymbolTable) (s : String) : SymbolTable × Nat :=
  match idxOf t.symbols s with
  | some i => (t, i)
  | none => (⟨t.symbols ++ [s]⟩, t.symbols.length)

/-- Modelled from the spec: `SymbolTable::print_symbol` — resolve an id to
its interned string (§4.1); only in-range ids are meaningful. -/
def SymbolTable.print_symbol (t : SymbolTable) (i : Nat) : String :=
  (t.symbols.get? i).getD ""

/-- Modelled from the spec: `datalog::ID`, the converted term — symbol and
variable names replaced by symbol-table ids (`u64` resp. `u32`). -/
inductive ID where
  | Symbol (s : Nat)
  | Variable (v : Nat)
  | Integer (i : Int)
  | Str (s : String)
  | Date (d : Nat)
  | Bytes (b : List Nat)
deriving Repr

/-- `builder::Term` as declared at token/builder.rs:252-259: six variants
(no `Bool`, no `Set`). -/
inductive Term where
  | Symbol (s : String)
  | Variable (s : String)
  | Integer (i : Int)
  | Str (s : String)
  | Date (d : Nat)
  | Bytes (b : List Nat)
deriving Repr

/-- `Term::convert`: intern symbol and variable names; the variable id is
cast `as u32`, an unchecked truncation modelled as `% 2^32`. -/
def Term.convert : Term → SymbolTable → SymbolTable × ID
  | .Symbol s, t => let r := t.insert s; (r.1, .Symbol r.2)
  | .Variable s, t => let r := t.insert s; (r.1, .Variable (r.2 % 2 ^ 32))
  | .Integer i, t => (t, .Integer i)
  | .Str s, t => (t, .Str s)
  | .Date d, t => (t, .Date d)
  | .Bytes b, t => (t, .Bytes b)

/-- `Term::convert_from`: resolve ids back to names (the variable id is
widened `as u64`, the identity on `Nat`). -/
def Term.convert_from : ID → SymbolTable → Term
  | .Symbol s, t => .Symbol (t.print_symbol s)
  | .Variable v, t => .Variable (t.print_symbol v)
  | .Integer i, _ => .Integer i
  | .Str s, _ => .Str s
  | .Date d, _ => .Date d
  | .Bytes b, _ => .Bytes b

/-- Sequential state-passing conversion of a list (the source's `for` loops
pushing onto a `Vec`). -/
def mapConvert {α β : Type} (f : α → SymbolTable → SymbolTable × β) :
    List α → SymbolTable → SymbolTable × List β
  | [], t => (t, [])
  | x :: xs, t =>
    let r1 := f x t
    let r2 := mapConvert f xs r1.1
    (r2.1, r1.2 :: r2.2)

/-- Modelled from the spec: `datalog::Predicate`. -/
structure DPredicate where
  name : Nat
  ids : List ID
deriving Repr

/-- Modelled from the spec: `datalog::Fact`. -/
structure DFact where
  predicate : DPredicate
deriving Repr

/-- `builder::Predicate` (six-variant terms). -/
structure Predicate where
  name : String
  ids : List Term
deriving Repr

/-- `Predicate::convert`: intern the name, then convert the terms in
order. -/
def Predicate.convert (p : Predicate) (t : SymbolTable) : SymbolTable × DPredicate :=
  let r1 := t.insert p.name
  let r2 := mapConvert Term.convert p.ids r1.1
  (r2.1, ⟨r1.2, r2.2⟩)

/-- `builder::Fact`. -/
structure Fact where
  pred : Predicate
deriving Repr

/-- `Fact::convert`. -/
def Fact.convert (f : Fact) (t : SymbolTable) : SymbolTable × DFact :=
  let r := f.pred.convert t
  (r.1, ⟨r.2⟩)

/-- `datalog::IntConstraint` (re-exported by builder.rs; the datalog module
is not under src/, constructors modelled from builder.rs's `Display`
match). -/
inductive IntConstraint where
  | Lower (i : Int)
  | Larger (i : Int)
  | LowerOrEqual (i : Int)
  | LargerOrEqual (i : Int)
  | Equal (i : Int)
  | In (s : List Int)
  | NotIn (s : List Int)
deriving Repr

/-- `datalog::StrConstraint`, modelled likewise. -/
inductive StrConstraint where
  | Prefix (s : String)
  | Suffix (s : String)
  | Equal (s : String)
  | Regex (s : String)
  | In (s : List String)
  | NotIn (s : List String)
deriving Repr

/-- `datalog::BytesConstraint`, modelled likewise. -/
inductive BytesConstraint where
  | Equal (b : List Nat)
  | In (s : List (List Nat))
  | NotIn (s : List (List Nat))
deriving Repr

/-- `builder::DateConstraint` over `SystemTime`; a `SystemTime` is modelled
as its seconds since the Unix epoch (conversion would panic on a pre-epoch
time, which this model therefore leaves out). -/
inductive DateConstraint where
  | Before (t : Nat)
  | After (t : Nat)
deriving Repr

/-- Modelled from the spec: `datalog::DateConstraint` over epoch seconds. -/
inductive DDateConstraint where
  | Before (t : Nat)
  | After (t : Nat)
deriving Repr

/-- `builder::SymbolConstraint`; `HashSet<String>` modelled as a list. -/
inductive SymbolConstraint where
  | In (s : List String)
  | NotIn (s : List String)
deriving Repr

/-- Modelled from the spec: `datalog::SymbolConstraint` over symbol ids. -/
inductive DSymbolConstraint where
  | In (s : List Nat)
  | NotIn (s : List Nat)
deriving Repr

/-- Modelled from the spec: `datalog::ConstraintKind`. -/
inductive DConstraintKind where
  | Int (c : IntConstraint)
  | Str (c : StrConstraint)
  | Date (c : DDateConstraint)
  | Symbol (c : DSymbolConstraint)
  | Bytes (c : BytesConstraint)
deriving Repr

/-- `builder::ConstraintKind`. -/
inductive ConstraintKind where
  | Integer (c : IntConstraint)
  | String (c : StrConstraint)
  | Date (c : DateConstraint)
  | Symbol (c : SymbolConstraint)
  | Bytes (c : BytesConstraint)
deriving Repr

/-- `ConstraintKind::convert`: clone the payload, turning dates into epoch
seconds and interning symbol-set members. -/
def ConstraintKind.convert : ConstraintKind → SymbolTable → SymbolTable × DConstraintKind
  | .Integer c, t => (t, .Int c)
  | .String c, t => (t, .Str c)
  | .Bytes c, t => (t, .Bytes c)
  | .Date (.Before d), t => (t, .Date (.Before d))
  | .Date (.After d), t => (t, .Date (.After d))
  | .Symbol (.In h), t =>
    let r := mapConvert (fun s u => u.insert s) h t
    (r.1, .Symbol (.In r.2))
  | .Symbol (.NotIn h), t =>
    let r := mapConvert (fun s u => u.insert s) h t
    (r.1, .Symbol (.NotIn r.2))

/-- `ConstraintKind::convert_from`. -/
def ConstraintKind.convert_from : DConstraintKind → SymbolTable → ConstraintKind
  | .Int c, _ => .Integer c
  | .Str c, _ => .String c
  | .Bytes c, _ => .Bytes c
  | .Date (.Before d), _ => .Date (.Before d)
  | .Date (.After d), _ => .Date (.After d)
  | .Symbol (.In h), t => .Symbol (.In (h.map t.print_symbol))
  | .Symbol (.NotIn h), t => .Symbol (.NotIn (h.map t.print_symbol))

/-- Modelled from the spec: `datalog::Constraint` — the constrained
variable's id is a `u32`. -/
structure DConstraint where
  id : Nat
  kind : DConstraintKind
deriving Repr

/-- `builder::Constraint`. -/
structure Constraint where
  id : String
  kind : ConstraintKind
deriving Repr

/-- `Constraint::convert`: the interned id is cast `as u32` (modelled as
`% 2^32`); the source comments that "the symbol table will not grow to
more than u32::MAX entries". -/
def Constraint.convert (c : Constraint) (t : SymbolTable) : SymbolTable × DConstraint :=
  let r1 := t.insert c.id
  let r2 := c.kind.convert r1.1
  (r2.1, ⟨r1.2 % 2 ^ 32, r2.2⟩)

/-- `Constraint::convert_from`. -/
def Constraint.convert_from (c : DConstraint) (t : SymbolTable) : Constraint :=
  ⟨t.print_symbol c.id, ConstraintKind.convert_from c.kind t⟩

/-- Modelled from the spec: `datalog::Rule`. -/
structure DRule where
  head : DPredicate
  body : List DPredicate
  constraints : List DConstraint
deriving Repr

/-- `builder::Rule` as declared in token/builder.rs: head, body,
constraints. -/
structure Rule where
  head : Predicate
  body : List Predicate
  constraints : List Constraint
deriving Repr

/-- `Rule::convert`: head first, then body predicates, then constraints. -/
def Rule.convert (r : Rule) (t : SymbolTable) : SymbolTable × DRule :=
  let r1 := r.head.convert t
  let r2 := mapConvert Predicate.convert r.body r1.1
  let r3 := mapConvert Constraint.convert r.constraints r2.1
  (r3.1, ⟨r1.2, r2.2, r3.2⟩)

/-- Modelled from the spec: `datalog::Caveat`. -/
structure DCaveat where
  queries : List DRule
deriving Repr

/-- `builder::Caveat`. -/
structure Caveat where
  queries : List Rule
deriving Repr

/-- `Caveat::convert`. -/
def Caveat.convert (c : Caveat) (t : SymbolTable) : SymbolTable × DCaveat :=
  let r := mapConvert Rule.convert c.queries t
  (r.1, ⟨r.2⟩)

/-- Modelled from the spec: `MAX_SCHEMA_VERSION` from the token module
(not under src/); its value does not matter here. -/
def MAX_SCHEMA_VERSION : Nat := 1

/-- `token::Block` as builder.rs constructs it (the signature-related
fields live outside src/). -/
structure Block where
  index : Nat
  symbols : SymbolTable
  facts : List DFact
  rules : List DRule
  caveats : List DCaveat
  context : Option String
  version : Nat
deriving Repr

/-- `builder::BlockBuilder`. -/
structure BlockBuilder where
  index : Nat
  facts : List Fact
  rules : List Rule
  caveats : List Caveat
  context : Option String
deriving Repr

/-- The conversion passes of `BlockBuilder::build`: facts, then rules,
then caveats, threading the symbol table. -/
def BlockBuilder.convertParts (b : BlockBuilder) (t : SymbolTable) :
    SymbolTable × (List DFact × List DRule × List DCaveat) :=
  let r1 := mapConvert Fact.convert b.facts t
  let r2 := mapConvert Rule.convert b.rules r1.1
  let r3 := mapConvert Caveat.convert b.caveats r2.1
  (r3.1, (r1.2, r2.2, r3.2))

/-- `BlockBuilder::build`: convert everything over the base table, then
`split_off` the symbols interned past the base table's length as the
block's own slice. -/
def BlockBuilder.build (b : BlockBuilder) (symbols : SymbolTable) : Block :=
  let symbols_start := symbols.symbols.length
  let r := b.convertParts symbols
  let new_syms : SymbolTable := ⟨r.1.symbols.drop symbols_start⟩
  ⟨b.index, new_syms, r.2.1, r.2.2.1, r.2.2.2, b.context, MAX_SCHEMA_VERSION⟩

/-- `builder::BiscuitBuilder` (the root key pair, which is only passed on
to the crypto layer outside src/, is omitted). -/
structure BiscuitBuilder where
  symbols_start : Nat
  symbols : SymbolTable
  facts : List DFact
  rules : List DRule
  caveats : List DCaveat
  context : Option String
deriving Repr

/-- `BiscuitBuilder::new` over a base symbol table. -/
def BiscuitBuilder.new (base : SymbolTable) : BiscuitBuilder :=
  ⟨base.symbols.length, base, [], [], [], none⟩

/-- `BiscuitBuilder::add_authority_fact` (the conversion happens at add
time; parse failures cannot arise for an already-built `Fact`). -/
def BiscuitBuilder.add_authority_fact (b : BiscuitBuilder) (f : Fact) : BiscuitBuilder :=
  let r := f.convert b.symbols
  { b with symbols := r.1, facts := b.facts ++ [r.2] }

/-- `BiscuitBuilder::add_authority_rule`. -/
def BiscuitBuilder.add_authority_rule (b : BiscuitBuilder) (r : Rule) : BiscuitBuilder :=
  let r1 := r.convert b.symbols
  { b with symbols := r1.1, rules := b.rules ++ [r1.2] }

/-- `BiscuitBuilder::add_authority_caveat`: a single rule wrapped as a
one-query caveat. -/
def BiscuitBuilder.add_authority_caveat (b : BiscuitBuilder) (r : Rule) : BiscuitBuilder :=
  let r1 := r.convert b.symbols
  { b with symbols := r1.1, caveats := b.caveats ++ [⟨[r1.2]⟩] }

/-- One call against a `BiscuitBuilder`, for quantifying over usage. -/
inductive AuthorityOp where
  | fact (f : Fact)
  | rule (r : Rule)
  | caveat (r : Rule)

/-- Apply a sequence of builder calls. -/
def applyOps : List AuthorityOp → BiscuitBuilder → BiscuitBuilder
  | [], b => b
  | .fact f :: ops, b => applyOps ops (b.add_authority_fact f)
  | .rule r :: ops, b => applyOps ops (b.add_authority_rule r)
  | .caveat r :: ops, b => applyOps ops (b.add_authority_caveat r)

/-- `t` extends `a`: `t`'s symbol list is `a`'s followed by a
duplicate-free run of symbols none of which `a` already holds (the shape
every interning pass below preserves). -/
def Extends (a b : SymbolTable) : Prop :=
  ∃ ext, b.symbols = a.symbols ++ ext ∧ ext.Nodup ∧ ∀ s ∈ ext, s ∉ a.symbols

/-- The authority block `BiscuitBuilder::build_with_rng` hands to
`Biscuit::new_with_rng` (the signing itself lives outside src/): index 0
and the symbols `split_off` past `symbols_start`. -/
def BiscuitBuilder.build_with_rng (b : BiscuitBuilder) : Block :=
  let new_syms : SymbolTable := ⟨b.symbols.symbols.drop b.symbols_start⟩
  ⟨0, new_syms, b.facts, b.rules, b.caveats, b.context, MAX_SCHEMA_VERSION⟩

end Builder

/-!
Theorems.  Each claim of the specification review is settled by exactly
one theorem below (witness and counterexample theorems where called for).
-/

/-- C1: the spec demands that a mixed-type, variable-containing or nested
`Set` literal be a recoverable parse error and never a crash.  The code
disagrees on the mixed-type case: `Fact::try_from("test([1, #a])")` hits
`panic!("set elements must have the same type")` in `set` (parser.rs, under
the source's own `FIXME: replace panics with proper parse errors`), while a
variable inside a set literal and a nested set literal do fail as ordinary
parse errors (`term_in_set` accepts neither, so the panicking checks are
not even reached). -/
theorem c1_set_literal_outcomes :
    Parser.Fact.try_from "test([1, #a])"
        = Parser.TFRes.panicked "set elements must have the same type"
    ∧ Parser.Fact.try_from "test([$x])" = Parser.TFRes.parseError
    ∧ Parser.Fact.try_from "test([[1]])" = Parser.TFRes.parseError :=
  ⟨rfl, rfl, rfl⟩

/-- C2: parsing `test(true)` and `test([1, 2])` does produce terms of
variant `Bool` and `Set` — in the term type `parser.rs` requires of the
builder — but the `Term` enum actually declared at token/builder.rs:252-259
has exactly the six variants `Symbol`, `Variable`, `Integer`, `Str`,
`Date`, `Bytes` and no `Bool` or `Set`, so the committed builder does not
provide every variant of the spec's tagged value. -/
theorem c2_bool_set_variants :
    Parser.fact "test(true)".toList
        = Parser.PRes.ok [] ⟨⟨"test", [Parser.Term.Bool true]⟩⟩
    ∧ Parser.fact "test([1, 2])".toList
        = Parser.PRes.ok []
            ⟨⟨"test", [Parser.Term.Set [Parser.Term.Integer 1, Parser.Term.Integer 2]]⟩⟩
    ∧ (∀ t : Builder.Term,
        (∃ s, t = .Symbol s) ∨ (∃ s, t = .Variable s) ∨ (∃ i, t = .Integer i)
        ∨ (∃ s, t = .Str s) ∨ (∃ d, t = .Date d) ∨ (∃ b, t = .Bytes b)) :=
  ⟨rfl, rfl, by
    intro t
    cases t with
    | Symbol s => exact Or.inl ⟨s, rfl⟩
    | Variable s => exact Or.inr (Or.inl ⟨s, rfl⟩)
    | Integer i => exact Or.inr (Or.inr (Or.inl ⟨i, rfl⟩))
    | Str s => exact Or.inr (Or.inr (Or.inr (Or.inl ⟨s, rfl⟩)))
    | Date d => exact Or.inr (Or.inr (Or.inr (Or.inr (Or.inl ⟨d, rfl⟩))))
    | Bytes b => exact Or.inr (Or.inr (Or.inr (Or.inr (Or.inr ⟨b, rfl⟩))))⟩

/-- `into_opcodes` appends this tree's postfix sequence to its
accumulator. -/
theorem into_opcodes_append (e : Parser.Expr) :
    ∀ v : List Parser.Op, e.into_opcodes v = v ++ opSpec e := by
  induction e with
  | Value t =>
    intro v
    simp [Parser.Expr.into_opcodes, opSpec]
  | Unary op e ih =>
    intro v
    simp only [Parser.Expr.into_opcodes, opSpec, ih, List.append_assoc]
  | Binary op l r ihl ihr =>
    intro v
    simp only [Parser.Expr.into_opcodes, opSpec, ihl, ihr, List.append_assoc]

/-- `opcodes` computes the direct postfix traversal. -/
theorem opcodes_eq_opSpec (e : Parser.Expr) : e.opcodes = opSpec e := by
  simpa using into_opcodes_append e []

/-- Running the machine over a tree's opcodes followed by any
continuation pushes the tree's value. -/
theorem evalOps_opcodes (fu : Parser.Unary → Parser.Term → Parser.Term)
    (fb : Parser.Binary → Parser.Term → Parser.Term → Parser.Term) :
    ∀ (e : Parser.Expr) (v : Parser.Term) (st : List Parser.Term) (rest : List Parser.Op),
      Parser.treeEval fu fb e = some v →
      Parser.evalOps fu fb (e.opcodes ++ rest) st = Parser.evalOps fu fb rest (v :: st) := by
  intro e
  induction e with
  | Value t =>
    intro v st rest h
    simp only [Parser.treeEval, Option.some.injEq] at h
    subst h
    rw [opcodes_eq_opSpec]
    simp [opSpec, Parser.evalOps]
  | Unary op e ih =>
    intro v st rest h
    cases op with
    | Unary u =>
      simp only [Parser.treeEval, Option.map_eq_some'] at h
      obtain ⟨w, hw, hv⟩ := h
      subst hv
      rw [opcodes_eq_opSpec]
      simp only [opSpec, List.append_assoc]
      rw [← opcodes_eq_opSpec, ih w st ([Parser.Op.Unary u] ++ rest) hw]
      simp [Parser.evalOps]
    | Value t => simp [Parser.treeEval] at h
    | Binary b => simp [Parser.treeEval] at h
  | Binary op l r ihl ihr =>
    intro v st rest h
    cases op with
    | Binary b =>
      simp only [Parser.treeEval] at h
      cases hl : Parser.treeEval fu fb l with
      | none => rw [hl] at h; simp at h
      | some x =>
        cases hr : Parser.treeEval fu fb r with
        | none => rw [hl, hr] at h; simp at h
        | some y =>
          rw [hl, hr] at h
          simp only [Option.some.injEq] at h
          subst h
          rw [opcodes_eq_opSpec]
          simp only [opSpec, List.append_assoc]
          rw [← opcodes_eq_opSpec l, ihl x st _ hl, ← opcodes_eq_opSpec r,
            ihr y (x :: st) _ hr]
          simp [Parser.evalOps]
    | Value t => simp [Parser.treeEval] at h
    | Unary u => simp [Parser.treeEval] at h

/-- C5: `Expr::opcodes` is the postfix traversal of the expression tree —
a `Value` node yields one `Value` opcode, a `Unary` node its operand's
opcodes then the opcode, a `Binary` node the left operand's, the right
operand's, then the opcode — and the spec's stack machine (§4.2), run on
the opcode sequence under any operator denotations, recomputes the tree's
value; a concrete run is included. -/
theorem c5_opcodes_postfix_machine :
    (∀ t, Parser.Expr.opcodes (.Value t) = [Parser.Op.Value t])
    ∧ (∀ op e, Parser.Expr.opcodes (.Unary op e) = Parser.Expr.opcodes e ++ [op])
    ∧ (∀ op l r, Parser.Expr.opcodes (.Binary op l r)
        = Parser.Expr.opcodes l ++ Parser.Expr.opcodes r ++ [op])
    ∧ (∀ fu fb (e : Parser.Expr) (v : Parser.Term) (st : List Parser.Term),
        Parser.treeEval fu fb e = some v →
        Parser.evalOps fu fb e.opcodes st = some (v :: st))
    ∧ Parser.evalOps (fun _ t => t)
        (fun b x y =>
          match b, x, y with
          | .Add, .Integer m, .Integer n => .Integer (m + n)
          | _, _, _ => .Bool false)
        (Parser.Expr.opcodes
          (.Binary (.Binary .Add) (.Value (.Integer 1)) (.Value (.Integer 2)))) []
        = some [Parser.Term.Integer 3] := by
  refine ⟨?_, ?_, ?_, ?_, rfl⟩
  · intro t; rw [opcodes_eq_opSpec]; rfl
  · intro op e; rw [opcodes_eq_opSpec, opcodes_eq_opSpec]; rfl
  · intro op l r
    rw [opcodes_eq_opSpec, opcodes_eq_opSpec, opcodes_eq_opSpec]; rfl
  · intro fu fb e v st h
    have h2 := evalOps_opcodes fu fb e v st [] h
    simpa [Parser.evalOps] using h2

/-- C8: `parse_date` accepts an RFC 3339 datetime and returns the `u64`
count of seconds since the Unix epoch — `2019-12-02T13:49:53Z` yields
`1575294593` (the `date` term parser wraps it as `Term::Date`) — a
pre-1970 datetime fails to parse (`timestamp().try_into()` rejects a
negative value, it does not wrap), and every successful parse returns
exactly the signed timestamp of its datetime chunk, so no value is ever
truncated or wrapped. -/
theorem c8_parse_date_rfc3339 :
    Parser.parse_date "2019-12-02T13:49:53Z".toList = Parser.PRes.ok [] 1575294593
    ∧ Parser.dateTermP "2019-12-02T13:49:53Z".toList
        = Parser.PRes.ok [] (Parser.Term.Date 1575294593)
    ∧ Parser.parse_date "1969-12-31T23:59:59Z".toList = Parser.PRes.fail
    ∧ (∀ i rest d, Parser.parse_date i = Parser.PRes.ok rest d →
        ∃ chunk, Parser.rfc3339Timestamp chunk = some ((d : Nat) : Int)) := by
  refine ⟨rfl, rfl, rfl, ?_⟩
  intro i rest d h
  unfold Parser.parse_date at h
  split at h
  · exact absurd h (by simp)
  · exact absurd h (by simp)
  · rename_i rest1 chunk _
    split at h
    · exact absurd h (by simp)
    · rename_i ts hts
      split at h
      · rename_i h0
        cases h
        exact ⟨chunk, by rw [hts, Int.toNat_of_nonneg h0]⟩
      · exact absurd h (by simp)

/-- C8 witness: the universally quantified part of
`c8_parse_date_rfc3339` applied at the example input. -/
theorem c8_parse_date_rfc3339_witness :
    ∃ chunk, Parser.rfc3339Timestamp chunk = some ((1575294593 : Nat) : Int) :=
  c8_parse_date_rfc3339.2.2.2 "2019-12-02T13:49:53Z".toList [] 1575294593 rfl

/-- C3: every successfully parsed caveat consists of `check if` followed
by `or`-separated rule bodies, and its `queries` field is exactly those
bodies in textual order, each wrapped as a `Rule` whose head is the
predicate `query` with an empty `ids` list — one query per body, so `n`
bodies yield exactly `n` queries. -/
theorem c3_caveat_query_structure :
    ∀ i rest c, Parser.caveat i = Parser.PRes.ok rest c →
      ∃ i1 bodies,
        Parser.tagNoCaseP "check if".toList (Parser.space0 i) = Parser.PRes.ok i1 ()
        ∧ Parser.sepRuleBodies i1 = Parser.PRes.ok rest bodies
        ∧ c.queries = bodies.map Parser.queryRule
        ∧ c.queries.length = bodies.length
        ∧ ∀ q ∈ c.queries, q.head = ⟨"query", []⟩ := by
  intro i rest c h
  unfold Parser.caveat at h
  split at h
  · exact absurd h (by simp)
  · exact absurd h (by simp)
  · rename_i i1 u htag
    refine ⟨i1, ?_⟩
    split at h
    · rename_i rest1 queries hbody
      cases h
      unfold Parser.caveat_body at hbody
      split at hbody
      · exact absurd hbody (by simp)
      · exact absurd hbody (by simp)
      · rename_i rest2 bodies hsep
        cases hbody
        refine ⟨bodies, htag, hsep, rfl, by simp, ?_⟩
        intro q hq
        simp only [List.mem_map] at hq
        obtain ⟨b, _, hb⟩ := hq
        rw [← hb]
        rfl
    · exact absurd h (by simp)
    · exact absurd h (by simp)

/-- C3 witness: `c3_caveat_query_structure` applied to
`check if a(#b) or c(#d)`, which parses to two `query`-headed rules. -/
theorem c3_caveat_query_structure_witness :
    ∃ i1 bodies,
      Parser.tagNoCaseP "check if".toList
          (Parser.space0 "check if a(#b) or c(#d)".toList) = Parser.PRes.ok i1 ()
      ∧ Parser.sepRuleBodies i1 = Parser.PRes.ok [] bodies
      ∧ (Parser.Caveat.mk
          [⟨⟨"query", []⟩, [⟨"a", [Parser.Term.Symbol "b"]⟩], []⟩,
           ⟨⟨"query", []⟩, [⟨"c", [Parser.Term.Symbol "d"]⟩], []⟩]).queries
          = bodies.map Parser.queryRule
      ∧ (Parser.Caveat.mk
          [⟨⟨"query", []⟩, [⟨"a", [Parser.Term.Symbol "b"]⟩], []⟩,
           ⟨⟨"query", []⟩, [⟨"c", [Parser.Term.Symbol "d"]⟩], []⟩]).queries.length
          = bodies.length
      ∧ ∀ q ∈ (Parser.Caveat.mk
          [⟨⟨"query", []⟩, [⟨"a", [Parser.Term.Symbol "b"]⟩], []⟩,
           ⟨⟨"query", []⟩, [⟨"c", [Parser.Term.Symbol "d"]⟩], []⟩]).queries,
          q.head = ⟨"query", []⟩ :=
  c3_caveat_query_structure "check if a(#b) or c(#d)".toList []
    ⟨[⟨⟨"query", []⟩, [⟨"a", [Parser.Term.Symbol "b"]⟩], []⟩,
      ⟨⟨"query", []⟩, [⟨"c", [Parser.Term.Symbol "d"]⟩], []⟩]⟩ rfl

/-- C4: prefixing a caveat body with `allow if` parses as an `Allow`
policy and with `deny if` as a `Deny` policy, both carrying exactly the
queries `caveat_body` produces for that body; an input bearing neither
prefix (after leading whitespace, case-insensitively) is rejected by the
policy parser. -/
theorem c4_policy_allow_deny :
    (∀ b rest qs, Parser.caveat_body b = Parser.PRes.ok rest qs →
      Parser.policy ("allow if".toList ++ b)
        = Parser.PRes.ok rest ⟨qs, Parser.PolicyKind.Allow⟩)
    ∧ (∀ b rest qs, Parser.caveat_body b = Parser.PRes.ok rest qs →
      Parser.policy ("deny if".toList ++ b)
        = Parser.PRes.ok rest ⟨qs, Parser.PolicyKind.Deny⟩)
    ∧ (∀ i, Parser.tagNoCaseP "allow if".toList (Parser.space0 i) = Parser.PRes.fail →
        Parser.tagNoCaseP "deny if".toList (Parser.space0 i) = Parser.PRes.fail →
        Parser.policy i = Parser.PRes.fail) := by
  refine ⟨?_, ?_, ?_⟩
  · intro b rest qs h
    have htag : Parser.tagNoCaseP "allow if".toList
        (Parser.space0 ("allow if".toList ++ b)) = Parser.PRes.ok b () := rfl
    have hallow : Parser.allow ("allow if".toList ++ b)
        = Parser.PRes.ok rest ⟨qs, Parser.PolicyKind.Allow⟩ := by
      unfold Parser.allow
      rw [htag]
      dsimp only
      rw [h]
    unfold Parser.policy Parser.altP
    rw [hallow]
  · intro b rest qs h
    have hafail : Parser.tagNoCaseP "allow if".toList
        (Parser.space0 ("deny if".toList ++ b)) = Parser.PRes.fail := rfl
    have hallow : Parser.allow ("deny if".toList ++ b) = Parser.PRes.fail := by
      unfold Parser.allow
      rw [hafail]
    have htag : Parser.tagNoCaseP "deny if".toList
        (Parser.space0 ("deny if".toList ++ b)) = Parser.PRes.ok b () := rfl
    have hdeny : Parser.deny ("deny if".toList ++ b)
        = Parser.PRes.ok rest ⟨qs, Parser.PolicyKind.Deny⟩ := by
      unfold Parser.deny
      rw [htag]
      dsimp only
      rw [h]
    unfold Parser.policy Parser.altP
    rw [hallow, hdeny]
  · intro i h1 h2
    have hallow : Parser.allow i = Parser.PRes.fail := by
      unfold Parser.allow
      rw [h1]
    have hdeny : Parser.deny i = Parser.PRes.fail := by
      unfold Parser.deny
      rw [h2]
    unfold Parser.policy Parser.altP
    rw [hallow, hdeny]

/-- C4 witness: the three parts of `c4_policy_allow_deny` at concrete
inputs — `allow if a(#b)`, `deny if c(#d)` and the prefix-less `foo`. -/
theorem c4_policy_allow_deny_witness :
    Parser.policy ("allow if".toList ++ " a(#b)".toList)
      = Parser.PRes.ok []
          ⟨[⟨⟨"query", []⟩, [⟨"a", [Parser.Term.Symbol "b"]⟩], []⟩],
           Parser.PolicyKind.Allow⟩
    ∧ Parser.policy ("deny if".toList ++ " c(#d)".toList)
      = Parser.PRes.ok []
          ⟨[⟨⟨"query", []⟩, [⟨"c", [Parser.Term.Symbol "d"]⟩], []⟩],
           Parser.PolicyKind.Deny⟩
    ∧ Parser.policy "foo".toList = Parser.PRes.fail :=
  ⟨c4_policy_allow_deny.1 " a(#b)".toList []
      [⟨⟨"query", []⟩, [⟨"a", [Parser.Term.Symbol "b"]⟩], []⟩] rfl,
   c4_policy_allow_deny.2.1 " c(#d)".toList []
      [⟨⟨"query", []⟩, [⟨"c", [Parser.Term.Symbol "d"]⟩], []⟩] rfl,
   c4_policy_allow_deny.2.2 "foo".toList rfl rfl⟩

/-- Swapping an adjacent expression/predicate pair among the parsed body
elements does not change the partition. -/
theorem partitionPE_swap :
    ∀ (xs : List Parser.PredOrExpr) (e : Parser.Expr) (p : Parser.Predicate) ys,
      Parser.partitionPE (xs ++ .E e :: .P p :: ys)
        = Parser.partitionPE (xs ++ .P p :: .E e :: ys) := by
  intro xs e p ys
  induction xs with
  | nil => simp [Parser.partitionPE]
  | cons x xs ih =>
    cases x with
    | P q => simp [Parser.partitionPE, ih]
    | E f => simp [Parser.partitionPE, ih]

/-- C6: `rule_body` parses its comma-separated elements with
`predicate_or_expression` and partitions them into the predicate list and
the expression list, each in textual order; partitioning is invariant
under moving an expression past an adjacent predicate, so two rule texts
differing only in where an expression stands among the body elements
parse to equal `Rule` values — shown concretely for the expression
`1 < 2` written between the two body predicates versus after them. -/
theorem c6_rule_body_partition :
    (∀ i rest ps es,
      Parser.rule_body i = Parser.PRes.ok rest (ps, es)
        ↔ ∃ els, Parser.sepPE i = Parser.PRes.ok rest els
            ∧ Parser.partitionPE els = (ps, es))
    ∧ (∀ (xs : List Parser.PredOrExpr) e p ys,
        Parser.partitionPE (xs ++ .E e :: .P p :: ys)
          = Parser.partitionPE (xs ++ .P p :: .E e :: ys))
    ∧ Parser.rule "h(#a) <- b(#c), 1 < 2, d(#e)".toList
        = Parser.rule "h(#a) <- b(#c), d(#e), 1 < 2".toList
    ∧ Parser.rule "h(#a) <- b(#c), 1 < 2, d(#e)".toList
        = Parser.PRes.ok []
            ⟨⟨"h", [Parser.Term.Symbol "a"]⟩,
             [⟨"b", [Parser.Term.Symbol "c"]⟩, ⟨"d", [Parser.Term.Symbol "e"]⟩],
             [⟨[Parser.Op.Value (Parser.Term.Integer 1),
                Parser.Op.Value (Parser.Term.Integer 2),
                Parser.Op.Binary Parser.Binary.LessThan]⟩]⟩ := by
  refine ⟨?_, partitionPE_swap, rfl, rfl⟩
  intro i rest ps es
  constructor
  · intro h
    unfold Parser.rule_body at h
    split at h
    · exact absurd h (by simp)
    · exact absurd h (by simp)
    · rename_i rest1 els hsep
      injection h with h1 h2
      subst h1
      exact ⟨els, hsep, h2⟩
  · rintro ⟨els, hsep, hpart⟩
    unfold Parser.rule_body
    rw [hsep]
    dsimp only
    rw [hpart]

/-- `tryFromVia` succeeds exactly when the parser accepts a prefix,
returning that prefix's value. -/
theorem tryFromVia_ok_iff {α : Type} (p : List Char → Parser.PRes α) (st : String)
    (f : α) : Parser.tryFromVia p st = Parser.TFRes.ok f
      ↔ ∃ rest, p st.toList = Parser.PRes.ok rest f := by
  unfold Parser.tryFromVia
  cases h : p st.toList with
  | ok rest v => simp
  | fail => simp
  | panicked m => simp

/-- `tryFromVia` reports `ParseError` exactly when the parser fails with a
nom error (as opposed to panicking). -/
theorem tryFromVia_err_iff {α : Type} (p : List Char → Parser.PRes α) (st : String) :
    Parser.tryFromVia p st = Parser.TFRes.parseError ↔ p st.toList = Parser.PRes.fail := by
  unfold Parser.tryFromVia
  cases h : p st.toList with
  | ok rest v => simp
  | fail => simp
  | panicked m => simp

/-- C9 (amended): the `TryFrom<&str>`/`FromStr` conversions for `Fact`,
`Rule`, `Caveat`, `Policy` and `Predicate` succeed with the parsed value
and silently discard trailing unconsumed input (`"test(#a) trailing junk"`
converts to the fact `test(#a)`); they return `Err(ParseError)` exactly
when the underlying parser fails with a nom error — but when the parser
panics (a mixed-type set literal), the panic propagates instead of
becoming `Err(ParseError)`.  `FromStr` and `TryFrom` agree. -/
theorem c9_try_from_prefix :
    Parser.Fact.try_from "test(#a) trailing junk"
        = Parser.TFRes.ok ⟨⟨"test", [Parser.Term.Symbol "a"]⟩⟩
    ∧ (∀ st f, Parser.Fact.try_from st = Parser.TFRes.ok f
        ↔ ∃ rest, Parser.fact st.toList = Parser.PRes.ok rest f)
    ∧ (∀ st, Parser.Fact.try_from st = Parser.TFRes.parseError
        ↔ Parser.fact st.toList = Parser.PRes.fail)
    ∧ (∀ st f, Parser.Rule.try_from st = Parser.TFRes.ok f
        ↔ ∃ rest, Parser.rule st.toList = Parser.PRes.ok rest f)
    ∧ (∀ st, Parser.Rule.try_from st = Parser.TFRes.parseError
        ↔ Parser.rule st.toList = Parser.PRes.fail)
    ∧ (∀ st f, Parser.Caveat.try_from st = Parser.TFRes.ok f
        ↔ ∃ rest, Parser.caveat st.toList = Parser.PRes.ok rest f)
    ∧ (∀ st, Parser.Caveat.try_from st = Parser.TFRes.parseError
        ↔ Parser.caveat st.toList = Parser.PRes.fail)
    ∧ (∀ st f, Parser.Policy.try_from st = Parser.TFRes.ok f
        ↔ ∃ rest, Parser.policy st.toList = Parser.PRes.ok rest f)
    ∧ (∀ st, Parser.Policy.try_from st = Parser.TFRes.parseError
        ↔ Parser.policy st.toList = Parser.PRes.fail)
    ∧ (∀ st f, Parser.Predicate.from_str st = Parser.TFRes.ok f
        ↔ ∃ rest, Parser.predicate st.toList = Parser.PRes.ok rest f)
    ∧ (∀ st, Parser.Predicate.from_str st = Parser.TFRes.parseError
        ↔ Parser.predicate st.toList = Parser.PRes.fail)
    ∧ (∀ st, Parser.Fact.from_str st = Parser.Fact.try_from st)
    ∧ (∀ st, Parser.Rule.from_str st = Parser.Rule.try_from st)
    ∧ (∀ st, Parser.Caveat.from_str st = Parser.Caveat.try_from st)
    ∧ (∀ st, Parser.Policy.from_str st = Parser.Policy.try_from st) :=
  ⟨rfl,
   fun st f => tryFromVia_ok_iff Parser.fact st f,
   fun st => tryFromVia_err_iff Parser.fact st,
   fun st f => tryFromVia_ok_iff Parser.rule st f,
   fun st => tryFromVia_err_iff Parser.rule st,
   fun st f => tryFromVia_ok_iff Parser.caveat st f,
   fun st => tryFromVia_err_iff Parser.caveat st,
   fun st f => tryFromVia_ok_iff Parser.policy st f,
   fun st => tryFromVia_err_iff Parser.policy st,
   fun st f => tryFromVia_ok_iff Parser.predicate st f,
   fun st => tryFromVia_err_iff Parser.predicate st,
   fun _ => rfl, fun _ => rfl, fun _ => rfl, fun _ => rfl⟩

/-- C9 counterexample: on `test([1, #a])` no prefix parses as a fact, yet
`Fact::try_from` does not return `Err(ParseError)` — it panics, refuting
the claimed "Err exactly when no prefix parses". -/
theorem c9_try_from_prefix_counterexample :
    Parser.Fact.try_from "test([1, #a])"
        = Parser.TFRes.panicked "set elements must have the same type"
    ∧ Parser.Fact.try_from "test([1, #a])" ≠ Parser.TFRes.parseError
    ∧ (∀ rest f, Parser.fact "test([1, #a])".toList ≠ Parser.PRes.ok rest f) :=
  ⟨rfl,
   fun h => Parser.TFRes.noConfusion h,
   fun _ _ h => Parser.PRes.noConfusion h⟩

namespace Builder

/-- `Extends` is reflexive. -/
theorem Extends.refl (t : SymbolTable) : Extends t t :=
  ⟨[], by simp, List.nodup_nil, by simp⟩

/-- `Extends` is transitive. -/
theorem Extends.trans {a b c : SymbolTable} (h1 : Extends a b) (h2 : Extends b c) :
    Extends a c := by
  obtain ⟨e1, hb, hn1, hf1⟩ := h1
  obtain ⟨e2, hc, hn2, hf2⟩ := h2
  refine ⟨e1 ++ e2, by rw [hc, hb, List.append_assoc], ?_, ?_⟩
  · refine List.Nodup.append hn1 hn2 ?_
    intro x hx1 hx2
    exact hf2 x hx2 (by rw [hb]; exact List.mem_append_right _ hx1)
  · intro x hx
    rcases List.mem_append.mp hx with h | h
    · exact hf1 x h
    · intro hmem
      exact hf2 x h (by rw [hb]; exact List.mem_append_left _ hmem)

/-- If `idxOf` finds nothing, the string is not in the list. -/
theorem idxOf_none_not_mem : ∀ (l : List String) (s : String),
    idxOf l s = none → s ∉ l := by
  intro l s
  induction l with
  | nil => intro _ h; exact absurd h (List.not_mem_nil s)
  | cons x xs ih =>
    intro h hmem
    unfold idxOf at h
    by_cases hx : x = s
    · simp [hx] at h
    · simp only [hx, if_false] at h
      rcases List.mem_cons.mp hmem with h1 | h1
      · exact hx h1.symm
      · exact ih (by cases hidx : idxOf xs s with
                    | none => rfl
                    | some k => rw [hidx] at h; simp at h) h1

/-- `insert` extends the table. -/
theorem insert_extends (t : SymbolTable) (s : String) : Extends t (t.insert s).1 := by
  unfold SymbolTable.insert
  cases h : idxOf t.symbols s with
  | some i => exact Extends.refl t
  | none =>
    refine ⟨[s], rfl, List.nodup_singleton s, ?_⟩
    intro x hx
    rw [List.mem_singleton.mp hx]
    exact idxOf_none_not_mem t.symbols s h

/-- A state-passing list conversion whose step extends the table extends
the table. -/
theorem mapConvert_extends {α β : Type} (f : α → SymbolTable → SymbolTable × β)
    (hf : ∀ a t, Extends t (f a t).1) :
    ∀ (l : List α) (t : SymbolTable), Extends t (mapConvert f l t).1 := by
  intro l
  induction l with
  | nil => intro t; exact Extends.refl t
  | cons x xs ih =>
    intro t
    exact Extends.trans (hf x t) (ih (f x t).1)

/-- `Term::convert` extends the table. -/
theorem term_convert_extends (x : Term) (t : SymbolTable) :
    Extends t (Term.convert x t).1 := by
  cases x with
  | Symbol s => exact insert_extends t s
  | Variable s => exact insert_extends t s
  | Integer i => exact Extends.refl t
  | Str s => exact Extends.refl t
  | Date d => exact Extends.refl t
  | Bytes b => exact Extends.refl t

/-- `Predicate::convert` extends the table. -/
theorem predicate_convert_extends (p : Predicate) (t : SymbolTable) :
    Extends t (Predicate.convert p t).1 :=
  Extends.trans (insert_extends t p.name)
    (mapConvert_extends Term.convert term_convert_extends p.ids (t.insert p.name).1)

/-- `Fact::convert` extends the table. -/
theorem fact_convert_extends (f : Fact) (t : SymbolTable) :
    Extends t (Fact.convert f t).1 :=
  predicate_convert_extends f.pred t

/-- `ConstraintKind::convert` extends the table. -/
theorem constraintKind_convert_extends (k : ConstraintKind) (t : SymbolTable) :
    Extends t (ConstraintKind.convert k t).1 := by
  cases k with
  | Integer c => exact Extends.refl t
  | String c => exact Extends.refl t
  | Bytes c => exact Extends.refl t
  | Date c => cases c with
    | Before d => exact Extends.refl t
    | After d => exact Extends.refl t
  | Symbol c => cases c with
    | In h => exact mapConvert_extends _ (fun s u => insert_extends u s) h t
    | NotIn h => exact mapConvert_extends _ (fun s u => insert_extends u s) h t

/-- `Constraint::convert` extends the table. -/
theorem constraint_convert_extends (c : Constraint) (t : SymbolTable) :
    Extends t (Constraint.convert c t).1 :=
  Extends.trans (insert_extends t c.id)
    (constraintKind_convert_extends c.kind (t.insert c.id).1)

/-- `Rule::convert` extends the table. -/
theorem rule_convert_extends (r : Rule) (t : SymbolTable) :
    Extends t (Rule.convert r t).1 :=
  Extends.trans (predicate_convert_extends r.head t)
    (Extends.trans
      (mapConvert_extends Predicate.convert predicate_convert_extends r.body _)
      (mapConvert_extends Constraint.convert constraint_convert_extends r.constraints _))

/-- `Caveat::convert` extends the table. -/
theorem caveat_convert_extends (c : Caveat) (t : SymbolTable) :
    Extends t (Caveat.convert c t).1 :=
  mapConvert_extends Rule.convert rule_convert_extends c.queries t

/-- The three conversion passes of `BlockBuilder::build` extend the
table. -/
theorem convertParts_extends (b : BlockBuilder) (t : SymbolTable) :
    Extends t (b.convertParts t).1 :=
  Extends.trans (mapConvert_extends Fact.convert fact_convert_extends b.facts t)
    (Extends.trans
      (mapConvert_extends Rule.convert rule_convert_extends b.rules _)
      (mapConvert_extends Caveat.convert caveat_convert_extends b.caveats _))

/-- `applyOps` keeps `symbols_start` and extends the symbol table. -/
theorem applyOps_extends : ∀ (ops : List AuthorityOp) (b : BiscuitBuilder),
    (applyOps ops b).symbols_start = b.symbols_start
    ∧ Extends b.symbols (applyOps ops b).symbols := by
  intro ops
  induction ops with
  | nil => intro b; exact ⟨rfl, Extends.refl b.symbols⟩
  | cons op ops ih =>
    intro b
    cases op with
    | fact f =>
      refine ⟨(ih _).1, Extends.trans (fact_convert_extends f b.symbols) ?_⟩
      exact (ih (b.add_authority_fact f)).2
    | rule r =>
      refine ⟨(ih _).1, Extends.trans (rule_convert_extends r b.symbols) ?_⟩
      exact (ih (b.add_authority_rule r)).2
    | caveat r =>
      refine ⟨(ih _).1, Extends.trans (rule_convert_extends r b.symbols) ?_⟩
      exact (ih (b.add_authority_caveat r)).2

end Builder

/-- C7: `BlockBuilder::build` over a base symbol table yields a block
whose symbol slice is exactly what the conversion appended past the base
table's length: the converted table is the base table followed by the
slice (so no existing id is renumbered), the slice has no duplicates, and
no symbol of the slice was already in the base table.  A `BiscuitBuilder`
populated by any sequence of `add_authority_*` calls builds its authority
block the same way, with index 0. -/
theorem c7_block_symbol_slice :
    (∀ (bb : Builder.BlockBuilder) (base : Builder.SymbolTable),
      (bb.build base).symbols.symbols
          = (bb.convertParts base).1.symbols.drop base.symbols.length
      ∧ (bb.convertParts base).1.symbols
          = base.symbols ++ (bb.build base).symbols.symbols
      ∧ (bb.build base).symbols.symbols.Nodup
      ∧ (∀ s ∈ (bb.build base).symbols.symbols, s ∉ base.symbols)
      ∧ (bb.build base).index = bb.index)
    ∧ (∀ (base : Builder.SymbolTable) (ops : List Builder.AuthorityOp),
      (Builder.applyOps ops (Builder.BiscuitBuilder.new base)).build_with_rng.index = 0
      ∧ (Builder.applyOps ops (Builder.BiscuitBuilder.new base)).symbols.symbols
          = base.symbols
            ++ (Builder.applyOps ops
                (Builder.BiscuitBuilder.new base)).build_with_rng.symbols.symbols
      ∧ (Builder.applyOps ops
          (Builder.BiscuitBuilder.new base)).build_with_rng.symbols.symbols.Nodup
      ∧ ∀ s ∈ (Builder.applyOps ops
          (Builder.BiscuitBuilder.new base)).build_with_rng.symbols.symbols,
          s ∉ base.symbols) := by
  constructor
  · intro bb base
    obtain ⟨ext, heq, hnodup, hfresh⟩ := Builder.convertParts_extends bb base
    have hdrop : (bb.convertParts base).1.symbols.drop base.symbols.length = ext := by
      rw [heq, List.drop_left]
    have hslice : (bb.build base).symbols.symbols
        = (bb.convertParts base).1.symbols.drop base.symbols.length := rfl
    refine ⟨hslice, ?_, ?_, ?_, rfl⟩
    · rw [hslice, hdrop, heq]
    · rw [hslice, hdrop]; exact hnodup
    · intro s hs
      rw [hslice, hdrop] at hs
      exact hfresh s hs
  · intro base ops
    obtain ⟨hstart, hext⟩ := Builder.applyOps_extends ops (Builder.BiscuitBuilder.new base)
    obtain ⟨ext, heq, hnodup, hfresh⟩ := hext
    have hbase : (Builder.BiscuitBuilder.new base).symbols = base := rfl
    rw [hbase] at heq hfresh
    have hslice : (Builder.applyOps ops
        (Builder.BiscuitBuilder.new base)).build_with_rng.symbols.symbols
        = (Builder.applyOps ops (Builder.BiscuitBuilder.new base)).symbols.symbols.drop
            (Builder.applyOps ops (Builder.BiscuitBuilder.new base)).symbols_start := rfl
    have hstart2 : (Builder.applyOps ops
        (Builder.BiscuitBuilder.new base)).symbols_start = base.symbols.length := hstart
    have hdrop : (Builder.applyOps ops
        (Builder.BiscuitBuilder.new base)).build_with_rng.symbols.symbols = ext := by
      rw [hslice, hstart2, heq, List.drop_left]
    refine ⟨rfl, ?_, ?_, ?_⟩
    · rw [hdrop, heq]
    · rw [hdrop]; exact hnodup
    · intro s hs
      rw [hdrop] at hs
      exact hfresh s hs

namespace Builder

/-- A found index points at the string and is in range. -/
theorem idxOf_some_get : ∀ (l : List String) (s : String) (i : Nat),
    idxOf l s = some i → l.get? i = some s ∧ i < l.length := by
  intro l
  induction l with
  | nil => intro s i h; exact absurd h (by simp [idxOf])
  | cons x xs ih =>
    intro s i h
    unfold idxOf at h
    by_cases hx : x = s
    · simp only [hx, if_true, Option.some.injEq] at h
      subst h
      exact ⟨by simp [hx], by simp⟩
    · simp only [hx, if_false, Option.map_eq_some'] at h
      obtain ⟨j, hj, hi⟩ := h
      subst hi
      obtain ⟨hget, hlt⟩ := ih s j hj
      exact ⟨by simpa using hget, by simpa using hlt⟩

/-- A string not in the list is not found. -/
theorem idxOf_eq_none_of_not_mem : ∀ (l : List String) (s : String),
    s ∉ l → idxOf l s = none := by
  intro l s
  induction l with
  | nil => intro _; rfl
  | cons x xs ih =>
    intro h
    unfold idxOf
    have hx : ¬x = s := fun hxs => h (by rw [hxs]; exact List.mem_cons_self s xs)
    simp only [hx, if_false]
    rw [ih (fun hmem => h (List.mem_cons_of_mem x hmem))]
    rfl

/-- The id `insert` returns points at the inserted string, lies inside the
returned table, and is at most the old table's length. -/
theorem insert_get (t : SymbolTable) (s : String) :
    (t.insert s).2 < (t.insert s).1.symbols.length
    ∧ (t.insert s).1.symbols.get? (t.insert s).2 = some s
    ∧ (t.insert s).2 ≤ t.symbols.length := by
  unfold SymbolTable.insert
  cases h : idxOf t.symbols s with
  | some i =>
    obtain ⟨hget, hlt⟩ := idxOf_some_get t.symbols s i h
    exact ⟨hlt, hget, Nat.le_of_lt hlt⟩
  | none =>
    refine ⟨by simp, ?_, by simp⟩
    exact List.get?_concat_length t.symbols s

/-- Extending a table leaves in-range lookups unchanged. -/
theorem Extends.get?_eq {a b : SymbolTable} (h : Extends a b) (i : Nat)
    (hi : i < a.symbols.length) : b.symbols.get? i = a.symbols.get? i := by
  obtain ⟨ext, heq, _, _⟩ := h
  rw [heq]
  exact List.get?_append hi

/-- `insert` of a fresh string appends it at the old length. -/
theorem insert_of_not_mem (t : SymbolTable) (s : String) (h : s ∉ t.symbols) :
    t.insert s = (⟨t.symbols ++ [s]⟩, t.symbols.length) := by
  unfold SymbolTable.insert
  rw [idxOf_eq_none_of_not_mem _ _ h]

/-- `Term::convert` on a variable, written out. -/
theorem convert_variable (name : String) (t : SymbolTable) :
    Term.convert (.Variable name) t
      = ((t.insert name).1, .Variable ((t.insert name).2 % 2 ^ 32)) := rfl

/-- `Term::convert_from` on a variable id, written out. -/
theorem convert_from_variable (v : Nat) (t : SymbolTable) :
    Term.convert_from (.Variable v) t = .Variable ((t.symbols.get? v).getD "") := rfl

/-- Replicated lists look up their element at every in-range index. -/
theorem get?_replicate_of_lt : ∀ (n i : Nat) (a : String), i < n →
    (List.replicate n a).get? i = some a := by
  intro n
  induction n with
  | zero => intro i a h; exact absurd h (Nat.not_lt_zero i)
  | succ m ih =>
    intro i a h
    cases i with
    | zero => simp [List.replicate]
    | succ j =>
      simp only [List.replicate, List.get?]
      exact ih j a (Nat.lt_of_succ_lt_succ h)

/-- Over a table of `n` copies of `"a"`, converting the fresh variable
`"b"` interns it at id `n`, the `as u32` cast wraps the id to `n % 2^32`,
and — whenever the wrapped id is below `n` — the round trip resolves to
`"a"`, not `"b"`. -/
theorem variable_roundtrip_wraps (n : Nat) (hmod : n % 2 ^ 32 < n) :
    Term.convert_from (Term.convert (.Variable "b") ⟨List.replicate n "a"⟩).2
        (Term.convert (.Variable "b") ⟨List.replicate n "a"⟩).1
      = .Variable "a" := by
  have hmem : "b" ∉ (SymbolTable.mk (List.replicate n "a")).symbols := by
    intro h
    have h2 := (List.mem_replicate.mp h).2
    exact absurd h2 (by decide)
  rw [convert_variable "b" ⟨List.replicate n "a"⟩]
  dsimp only
  rw [insert_of_not_mem _ _ hmem]
  dsimp only
  rw [convert_from_variable]
  have hlen : (List.replicate n "a").length = n := List.length_replicate n "a"
  rw [hlen]
  rw [List.get?_append (by rw [hlen]; exact hmod)]
  rw [get?_replicate_of_lt n (n % 2 ^ 32) "a" hmod]
  rfl

end Builder

/-- C10: `Term::convert` truncates a variable's interned `u64` id with an
unchecked `as u32` cast (modelled as `% 2^32`); under the invariant the
source merely comments — fewer than `2^32` symbol-table entries — the
round trip `convert_from(convert(x))` restores the variable's name, and
likewise `Constraint::convert`/`convert_from` restore the constrained
variable's name; at `2^32` entries the truncation wraps the id to 0 and
the round trip returns the wrong name, so the bound is assumed, not
enforced.  A concrete round trip over a one-entry table is included. -/
theorem c10_u32_truncation :
    (∀ (syms : Builder.SymbolTable) (name : String),
      (Builder.Term.convert (.Variable name) syms).2
        = Builder.ID.Variable ((syms.insert name).2 % 2 ^ 32))
    ∧ (∀ (syms : Builder.SymbolTable) (name : String),
        syms.symbols.length < 2 ^ 32 →
        Builder.Term.convert_from (Builder.Term.convert (.Variable name) syms).2
            (Builder.Term.convert (.Variable name) syms).1
          = Builder.Term.Variable name)
    ∧ (∀ (c : Builder.Constraint) (syms : Builder.SymbolTable),
        syms.symbols.length < 2 ^ 32 →
        (Builder.Constraint.convert_from (c.convert syms).2 (c.convert syms).1).id = c.id)
    ∧ (∃ (syms : Builder.SymbolTable) (name : String),
        2 ^ 32 ≤ syms.symbols.length
        ∧ Builder.Term.convert_from (Builder.Term.convert (.Variable name) syms).2
              (Builder.Term.convert (.Variable name) syms).1
            ≠ Builder.Term.Variable name)
    ∧ Builder.Term.convert_from
        (Builder.Term.convert (.Variable "x") ⟨["a"]⟩).2
        (Builder.Term.convert (.Variable "x") ⟨["a"]⟩).1
        = Builder.Term.Variable "x" := by
  have hlt_of : ∀ (syms : Builder.SymbolTable) (name : String),
      syms.symbols.length < 2 ^ 32 → (syms.insert name).2 % 2 ^ 32 = (syms.insert name).2 := by
    intro syms name hlen
    obtain ⟨_, _, hle⟩ := Builder.insert_get syms name
    exact Nat.mod_eq_of_lt (Nat.lt_of_le_of_lt hle hlen)
  refine ⟨fun syms name => rfl, ?_, ?_, ?_, rfl⟩
  · intro syms name hlen
    show Builder.Term.Variable
        (((Builder.SymbolTable.insert syms name).1).print_symbol
          ((syms.insert name).2 % 2 ^ 32)) = Builder.Term.Variable name
    rw [hlt_of syms name hlen]
    obtain ⟨_, hget, _⟩ := Builder.insert_get syms name
    unfold Builder.SymbolTable.print_symbol
    rw [hget]
    rfl
  · intro c syms hlen
    show ((c.convert syms).1).print_symbol ((syms.insert c.id).2 % 2 ^ 32) = c.id
    rw [hlt_of syms c.id hlen]
    obtain ⟨hin, hget, _⟩ := Builder.insert_get syms c.id
    have hext := Builder.constraintKind_convert_extends c.kind (syms.insert c.id).1
    unfold Builder.SymbolTable.print_symbol
    show (((c.kind.convert (syms.insert c.id).1).1).symbols.get?
        ((syms.insert c.id).2)).getD "" = c.id
    rw [Builder.Extends.get?_eq hext _ hin, hget]
    rfl
  · refine ⟨⟨List.replicate (2 ^ 32) "a"⟩, "b",
      le_of_eq (List.length_replicate (2 ^ 32) "a").symm, ?_⟩
    intro h
    rw [Builder.variable_roundtrip_wraps (2 ^ 32)
      (by rw [Nat.mod_self]; norm_num)] at h
    injection h with h2
    exact absurd h2 (by decide)

/-- C10 witness: the bounded parts of `c10_u32_truncation` applied over a
one-entry table, whose length is below `2^32`. -/
theorem c10_u32_truncation_witness :
    Builder.Term.convert_from
        (Builder.Term.convert (.Variable "y") ⟨["a"]⟩).2
        (Builder.Term.convert (.Variable "y") ⟨["a"]⟩).1
      = Builder.Term.Variable "y"
    ∧ (Builder.Constraint.convert_from
        ((Builder.Constraint.mk "v" (.Integer (.Equal 1))).convert ⟨["a"]⟩).2
        ((Builder.Constraint.mk "v" (.Integer (.Equal 1))).convert ⟨["a"]⟩).1).id = "v" :=
  ⟨c10_u32_truncation.2.1 ⟨["a"]⟩ "y" (by norm_num),
   c10_u32_truncation.2.2.1 (Builder.Constraint.mk "v" (.Integer (.Equal 1))) ⟨["a"]⟩
     (by norm_num)⟩




